import Mathlib

/-!
Shallow embedding of the `feedrick` offset-log toolkit (src/main.rs) and
proofs about its operations: verify, validate, extract, sort, view.

External collaborators (serde_json decoding, ssb_validate's
validate_hash_chain, ssb_verify_signatures' verify) are modelled as
abstract parameters; the repository's own control flow is translated
faithfully from src/main.rs.
-/

/-- A log entry of the flumedb offset log: a byte offset and raw data bytes
(`LogEntry { offset: u64, data: Vec<u8> }`). Bytes are modelled as `Nat`. -/
structure LogEntry where
  offset : Nat
  data : List Nat
deriving DecidableEq, Repr

/-- Model of `serde_json::Value`. JSON text cannot denote NaN or infinity
payloads through the default parser's `as_f64` in a way that yields NaN from
a literal, so numbers are modelled as rationals. -/
inductive Json where
  | null
  | bool (b : Bool)
  | num (q : ℚ)
  | str (s : String)
  | arr (elems : List Json)
  | obj (fields : List (String × Json))

/-- `Value::get(key)` on an object: first field with the key; `None` on
non-objects. -/
def Json.get : Json → String → Option Json
  | .obj fields, key => (fields.find? (fun p => p.1 == key)).map (fun p => p.2)
  | _, _ => none

/-- `Value::as_str`. -/
def Json.asStr : Json → Option String
  | .str s => some s
  | _ => none

/-- Model of Rust `f64` for the purposes of the sort comparator: either NaN
or a finite (rational) value. -/
inductive F64 where
  | nan
  | finite (q : ℚ)
deriving DecidableEq, Repr

/-- `f64::partial_cmp`: `None` exactly when a NaN is involved. -/
def F64.fcmp : F64 → F64 → Option Ordering
  | .finite a, .finite b =>
      some (if a < b then .lt else if b < a then .gt else .eq)
  | _, _ => none

/-- `Value::as_f64` on the model: numbers only. Numbers parsed from JSON
text are finite. -/
def Json.asF64 : Json → Option F64
  | .num q => some (.finite q)
  | _ => none

/-- `data.iter().all(|b| *b == 0)`: the tombstone/padding test used by the
verify and validate branches (src/main.rs lines 144, 158, 182). -/
def isTombstone (d : List Nat) : Bool :=
  d.all (fun b => b == 0)

/-! ## verify (src/main.rs lines 133-170)

The signature verifier `ssb_verify_signatures::verify` is an external
collaborator; it is abstracted as a predicate `verifyOk` on raw bytes. -/

/-- Sequential mode (lines 154-160): map to data, filter out tombstones,
verify each, conjoin. -/
def verifySequentialOk (verifyOk : List Nat → Bool) (log : List LogEntry) : Bool :=
  ((((log.map (fun e => e.data)).filter (fun d => !isTombstone d)).map
      (fun d => verifyOk d)).all (fun ok => ok))

/-- `itertools` `chunks(c)`: successive chunks of at most `c` elements,
in order. (For `c = 0` the real iterator is unusable; theorems that use
chunking assume `0 < c`.) -/
def chunkList (c : Nat) : List α → List (List α)
  | [] => []
  | x :: xs => (x :: xs.take (c - 1)) :: chunkList c (xs.drop (c - 1))
termination_by l => l.length
decreasing_by simp [List.length_drop]; omega

/-- Modelled from the spec: `ssb_verify_signatures::par_verify_batch` is an
external collaborator whose contract is that a batch verifies exactly when
every member verifies (spec §4.6, §6). -/
def parVerifyBatch (verifyOk : List Nat → Bool) (msgs : List (List Nat)) : Bool :=
  msgs.all (fun d => verifyOk d)

/-- Parallel mode (lines 142-152): filter out tombstones, chunk, batch-verify
each chunk, conjoin the chunk results. The source fixes `c = 2000`. -/
def verifyParallelOk (verifyOk : List Nat → Bool) (c : Nat) (log : List LogEntry) : Bool :=
  (((chunkList c ((log.map (fun e => e.data)).filter (fun d => !isTombstone d))).map
      (fun chunk => parVerifyBatch verifyOk chunk)).all (fun ok => ok))

/-- What the verify branch reports. -/
inductive VerifyReport where
  | emptyInput
  | allOk
  | notAllOk
deriving DecidableEq, Repr

/-- The whole verify branch: empty-file guard (lines 137-140), then the
sequential or parallel conjunction, then the report (lines 163-167). -/
def verifyOp (verifyOk : List Nat → Bool) (par : Bool) (log : List LogEntry) : VerifyReport :=
  if log.isEmpty then .emptyInput
  else if (if par then verifyParallelOk verifyOk 2000 log else verifySequentialOk verifyOk log)
    then .allOk else .notAllOk

/-! ## extract (src/main.rs lines 229-265, 329-398)

JSON decoding by `serde_json::from_slice` is an external collaborator; it
is abstracted as a function `decode` from raw bytes to an optional value. -/

/-- The author-extraction chain of copy_log_entries_using_author
(lines 337-348): decode the data, then `get("value")`, `get("author")`,
`as_str`; `none` when the payload is not JSON or lacks a string author. -/
def authorOfData (decode : List Nat → Option Json) (d : List Nat) : Option String :=
  match decode d with
  | some v => ((v.get "value").bind (fun v => v.get "author")).bind Json.asStr
  | none => none

/-- The per-entry predicate copy_log_entries_using_author passes to
copy_log_entries (lines 337-348): `map_or(false, should_write)` on the
extracted author; decode failure means `false`. -/
def copyShouldWrite (decode : List Nat → Option Json) (shouldWrite : String → Bool)
    (e : LogEntry) : Bool :=
  match authorOfData decode e.data with
  | some a => shouldWrite a
  | none => false

/-- copy_log_entries' write loop (lines 377-394): fold over the log in
forward order, appending the raw data bytes of each entry whose predicate
holds. Progress output and file I/O are not modelled. -/
def copyLogEntries (shouldWrite : LogEntry → Bool) (log : List LogEntry) :
    List (List Nat) :=
  log.foldl (fun acc e => if shouldWrite e then acc ++ [e.data] else acc) []

/-- The extract author predicate (lines 260-264): `id != feed_id` when
inverted, `id == feed_id` otherwise. -/
def extractPred (feedId : String) (invert : Bool) : String → Bool :=
  if invert then (fun id => id != feedId) else (fun id => id == feedId)

/-- Observable outcome of an extract or sort run: whether it refused over
an existing destination, whether the destination file was created or
truncated, whether the empty-input report was printed, and the data bytes
appended to the destination, in order. -/
structure CopyResult where
  refused : Bool
  destCreated : Bool
  reportedEmpty : Bool
  written : List (List Nat)
deriving DecidableEq, Repr

/-- The extract branch (lines 229-265): refusal check before anything else
(236-240); the empty-input check (242-246) runs before the destination is
created (248-254); otherwise entries whose author matches are copied. -/
def extractOp (decode : List Nat → Option Json) (feedId : String)
    (invert overwrite destExists : Bool) (log : List LogEntry) : CopyResult :=
  if !overwrite && destExists then ⟨true, false, false, []⟩
  else if log.isEmpty then ⟨false, false, true, []⟩
  else ⟨false, true, false,
    copyLogEntries (copyShouldWrite decode (extractPred feedId invert)) log⟩

/-! ## sort (src/main.rs lines 266-313, 437-448) -/

/-- get_entry_timestamp (lines 437-448): `value.timestamp` as f64, with
0.0 for undecodable payloads or missing/non-numeric fields. -/
def getEntryTimestamp (decode : List Nat → Option Json) (e : LogEntry) : F64 :=
  match decode e.data with
  | some v => ((((v.get "value").bind (fun v => v.get "timestamp")).bind Json.asF64).getD
      (.finite 0))
  | none => .finite 0

/-- The key list built by the sort branch (lines 294-298): every entry of
the log contributes a (timestamp, offset) pair; there is no tombstone
filter in this branch. -/
def sortKeys (decode : List Nat → Option Json) (log : List LogEntry) :
    List (F64 × Nat) :=
  log.map (fun e => (getEntryTimestamp decode e, e.offset))

/-- Weak comparator outcome of line 300 (`partial_cmp(..).unwrap()` not
Greater): used to state sortedness of the unstable sort's output. -/
def keyLe (a b : F64 × Nat) : Bool :=
  match F64.fcmp a.1 b.1 with
  | some .lt => true
  | some .eq => true
  | _ => false

/-- Strict comparator outcome (`partial_cmp(..).unwrap()` is Less). -/
def keyLt (a b : F64 × Nat) : Bool :=
  match F64.fcmp a.1 b.1 with
  | some .lt => true
  | _ => false

/-- Contract of `par_sort_unstable_by` at line 300: the sorted key list is
SOME permutation of the key list that is pairwise ordered by the
comparator; which permutation is unspecified (the sort is unstable). -/
def isSortedKeysFor (decode : List Nat → Option Json) (log : List LogEntry)
    (sk : List (F64 × Nat)) : Prop :=
  sk.Perm (sortKeys decode log) ∧ sk.Pairwise (fun a b => keyLe a b = true)

/-- `in_log.get(offset)` at line 308: the data of the first entry at the
offset; `[]` stands for the panicking unwrap on a missing offset, which
cannot happen for offsets taken from the log itself. -/
def logGetD (log : List LogEntry) (off : Nat) : List Nat :=
  ((log.find? (fun e => e.offset == off)).map (fun e => e.data)).getD []

/-- The sort branch (lines 266-313), parameterised by the key permutation
`sk` the unstable parallel sort chose: the refusal check (271-275) runs
before the destination is created/truncated (277-283); the empty-input
check (286-289) runs AFTER the destination was created; otherwise entries
are re-read by offset in `sk` order and appended (307-310). -/
def sortResult (decode : List Nat → Option Json) (overwrite destExists : Bool)
    (log : List LogEntry) (sk : List (F64 × Nat)) : CopyResult :=
  if !overwrite && destExists then ⟨true, false, false, []⟩
  else if log.isEmpty then ⟨false, true, true, []⟩
  else ⟨false, true, false, sk.map (fun k => logGetD log k.2)⟩

/-! ## validate (src/main.rs lines 171-228)

The hash-chain auditor `ssb_validate::validate_hash_chain` is an external
collaborator; it is abstracted as a predicate `vhc` on the current raw
bytes and the optional previous raw bytes (`true` means the audit passed). -/

/-- The serde parse of `SsbMessage { value: SsbMessageValue { author } }`
at line 184: `none` (a panicking unwrap) when the payload is not JSON or
the string field `value.author` is missing. -/
def parseSsbAuthor (decode : List Nat → Option Json) (d : List Nat) : Option String :=
  (decode d).bind (fun j => ((j.get "value").bind (fun v => v.get "author")).bind Json.asStr)

/-- One step of the validate scan (lines 183-194): parse the author (a
parse failure is the panicking unwrap at line 184, i.e. `none`), look up
the author's previous raw message, run the hash-chain audit, and store the
current raw bytes as the author's new previous regardless of the audit
outcome. The state is the (result, author) pair list in scan order and the
per-author previous-message map. -/
def validateStep (vhc : List Nat → Option (List Nat) → Bool)
    (decode : List Nat → Option Json)
    (st : List (Bool × String) × List (String × List Nat)) (e : LogEntry) :
    Option (List (Bool × String) × List (String × List Nat)) :=
  match parseSsbAuthor decode e.data with
  | none => none
  | some author =>
    some (st.1 ++ [(vhc e.data ((st.2.find? (fun p => p.1 == author)).map (fun p => p.2)),
        author)],
      (author, e.data) :: st.2.filter (fun p => p.1 != author))

/-- The validate scan (lines 181-195): tombstones are filtered out first,
then each remaining entry is processed in order; `none` models the panic
of the unwrap at line 184. -/
def validateScan (vhc : List Nat → Option (List Nat) → Bool)
    (decode : List Nat → Option Json) (log : List LogEntry) :
    Option (List (Bool × String) × List (String × List Nat)) :=
  (log.filter (fun e => !isTombstone e.data)).foldlM (validateStep vhc decode) ([], [])

/-- Number of audit errors reported for one author: the failing results of
the partition at line 195, grouped by author (lines 198-211). -/
def errorsForAuthor (pairs : List (Bool × String)) (author : String) : Nat :=
  (pairs.filter (fun p => !p.1 && p.2 == author)).length

/-- What the validate branch reports. -/
inductive ValidateReport where
  | emptyInput
  | panicked
  | completed (pairs : List (Bool × String)) (prevMap : List (String × List Nat))

/-- The whole validate branch: empty-file guard (lines 176-179), then the
scan. -/
def validateOp (vhc : List Nat → Option (List Nat) → Bool)
    (decode : List Nat → Option Json) (log : List LogEntry) : ValidateReport :=
  if log.isEmpty then .emptyInput
  else match validateScan vhc decode log with
    | none => .panicked
    | some st => .completed st.1 st.2

/-! ## view (src/main.rs lines 400-435) -/

/-- The pager's per-entry transform (lines 404-407): decode the payload of
EVERY entry the cursor yields — there is no tombstone filter — and pair it
with the entry; the unwrap at line 405 panics (`none`) on undecodable
data. -/
def viewMapEntry (decode : List Nat → Option Json) (e : LogEntry) :
    Option (LogEntry × Json) :=
  (decode e.data).map (fun v => (e, v))

theorem chunkList_flatten (c : Nat) (l : List α) : (chunkList c l).flatten = l := by
  match l with
  | [] => simp [chunkList]
  | x :: xs =>
    have ih := chunkList_flatten c (xs.drop (c - 1))
    rw [chunkList]
    simp only [List.flatten_cons, ih, List.cons_append, List.take_append_drop]
termination_by l.length
decreasing_by simp [List.length_drop]; omega

theorem list_all_map (f : α → β) (p : β → Bool) (l : List α) :
    (l.map f).all p = l.all (fun a => p (f a)) := by
  induction l with
  | nil => rfl
  | cons x xs ih => simp [ih]

theorem verifyParallel_eq_sequential (verifyOk : List Nat → Bool) (c : Nat)
    (log : List LogEntry) :
    verifyParallelOk verifyOk c log = verifySequentialOk verifyOk log := by
  unfold verifyParallelOk verifySequentialOk parVerifyBatch
  simp only [list_all_map]
  rw [← List.all_flatten (f := fun d => verifyOk d) (l := chunkList c
    ((log.map (fun e => e.data)).filter (fun d => !isTombstone d)))]
  rw [chunkList_flatten]

theorem verifySequential_iff (verifyOk : List Nat → Bool) (log : List LogEntry) :
    verifySequentialOk verifyOk log = true ↔
      ∀ e ∈ log, isTombstone e.data = false → verifyOk e.data = true := by
  unfold verifySequentialOk
  simp only [List.all_eq_true, List.mem_map, List.mem_filter, Bool.not_eq_true']
  constructor
  · intro h e he ht
    exact h (verifyOk e.data) ⟨e.data, ⟨⟨e, he, rfl⟩, ht⟩, rfl⟩
  · rintro h x ⟨d, ⟨⟨e, he, rfl⟩, ht⟩, rfl⟩
    exact h e he ht

/-- C1: the verify operation succeeds iff every non-tombstone entry passes
signature verification; the parallel mode (for any positive chunk size,
including the source's 2000) computes the same result as sequential mode;
a log that is empty after tombstone filtering reports success. -/
theorem c1_verify_conjunction (verifyOk : List Nat → Bool) (par : Bool) (c : Nat)
    (log : List LogEntry) (hc : 0 < c) (hne : log ≠ []) :
    (verifyParallelOk verifyOk c log = verifySequentialOk verifyOk log)
    ∧ (verifyOp verifyOk par log = .allOk ↔
        ∀ e ∈ log, isTombstone e.data = false → verifyOk e.data = true)
    ∧ ((log.filter (fun e => !isTombstone e.data)) = [] →
        verifyOp verifyOk par log = .allOk) := by
  have hpar := verifyParallel_eq_sequential verifyOk c log
  have hpar2000 := verifyParallel_eq_sequential verifyOk 2000 log
  have hiff := verifySequential_iff verifyOk log
  have hemp : log.isEmpty = false := by
    cases log with
    | nil => exact absurd rfl hne
    | cons e es => rfl
  have hmain : verifyOp verifyOk par log = .allOk ↔
      ∀ e ∈ log, isTombstone e.data = false → verifyOk e.data = true := by
    rw [← hiff]
    unfold verifyOp
    rw [hemp]
    cases par
    · by_cases hs : verifySequentialOk verifyOk log = true <;> simp [hs]
    · rw [hpar2000] at *
      by_cases hs : verifySequentialOk verifyOk log = true <;> simp [hs, hpar2000]
  refine ⟨hpar, hmain, fun hf => hmain.mpr ?_⟩
  intro e he ht
  exfalso
  have hmem : e ∈ log.filter (fun e => !isTombstone e.data) :=
    List.mem_filter.mpr ⟨he, by simp [ht]⟩
  rw [hf] at hmem
  exact absurd hmem (List.not_mem_nil e)

/-- Witness for C1: a one-entry log with an always-true verifier, chunk
size 2, sequential report mode. -/
theorem c1_verify_conjunction_witness :
    (0 < 2) ∧ ([(⟨0, [1]⟩ : LogEntry)] ≠ []) ∧
      ((verifyParallelOk (fun _ => true) 2 [(⟨0, [1]⟩ : LogEntry)]
          = verifySequentialOk (fun _ => true) [(⟨0, [1]⟩ : LogEntry)])
      ∧ (verifyOp (fun _ => true) false [(⟨0, [1]⟩ : LogEntry)] = .allOk ↔
          ∀ e ∈ [(⟨0, [1]⟩ : LogEntry)],
            isTombstone e.data = false → (fun _ => true) e.data = true)
      ∧ (([(⟨0, [1]⟩ : LogEntry)].filter (fun e => !isTombstone e.data)) = [] →
          verifyOp (fun _ => true) false [(⟨0, [1]⟩ : LogEntry)] = .allOk)) :=
  ⟨by decide, by decide,
    c1_verify_conjunction (fun _ => true) false 2 [(⟨0, [1]⟩ : LogEntry)]
      (by decide) (by decide)⟩

theorem copyLogEntries_eq_filter_map (p : LogEntry → Bool) (log : List LogEntry) :
    copyLogEntries p log = (log.filter p).map (fun e => e.data) := by
  unfold copyLogEntries
  suffices h : ∀ acc, log.foldl (fun acc e => if p e then acc ++ [e.data] else acc) acc
      = acc ++ (log.filter p).map (fun e => e.data) by simpa using h []
  induction log with
  | nil => intro acc; simp
  | cons e es ih =>
    intro acc
    by_cases he : p e <;> simp [List.filter_cons, he, ih]

/-- C6: extract appends exactly the raw data bytes, in source scan order,
of the entries whose payload decodes with a string value.author matching
the (possibly inverted) target; entries that fail to decode or lack an
author are never written, regardless of the invert flag. -/
theorem c6_extract_filter (decode : List Nat → Option Json) (feedId : String)
    (invert : Bool) (log : List LogEntry) (hne : log ≠ []) :
    (extractOp decode feedId invert true false log).written
      = (log.filter (fun e => copyShouldWrite decode (extractPred feedId invert) e)).map
          (fun e => e.data)
    ∧ (∀ e : LogEntry, copyShouldWrite decode (extractPred feedId invert) e = true ↔
        ∃ a, authorOfData decode e.data = some a ∧
          (if invert then a ≠ feedId else a = feedId))
    ∧ (∀ e : LogEntry, authorOfData decode e.data = none →
        copyShouldWrite decode (extractPred feedId invert) e = false) := by
  have hemp : log.isEmpty = false := by
    cases log with
    | nil => exact absurd rfl hne
    | cons e es => rfl
  refine ⟨?_, ?_, ?_⟩
  · unfold extractOp
    rw [hemp]
    simp only [Bool.not_true, Bool.false_and, Bool.false_eq_true, if_false]
    exact copyLogEntries_eq_filter_map _ log
  · intro e
    unfold copyShouldWrite extractPred
    cases ha : authorOfData decode e.data with
    | none => simp
    | some a =>
      cases invert with
      | false => simp [beq_iff_eq]
      | true =>
        simp only [if_true, if_false, bne_iff_ne]
        constructor
        · intro h; exact ⟨a, rfl, by simpa using h⟩
        · rintro ⟨b, hb, h⟩
          injection hb with hb
          subst hb
          simpa using h
  · intro e ha
    unfold copyShouldWrite
    rw [ha]

/-- Witness for C6: one-entry non-empty log. -/
theorem c6_extract_filter_witness :
    ([(⟨0, [1]⟩ : LogEntry)] ≠ []) ∧
      ((extractOp (fun _ => none) "A" false true false [(⟨0, [1]⟩ : LogEntry)]).written
        = ([(⟨0, [1]⟩ : LogEntry)].filter
            (fun e => copyShouldWrite (fun _ => none) (extractPred "A" false) e)).map
            (fun e => e.data)
      ∧ (∀ e : LogEntry, copyShouldWrite (fun _ => none) (extractPred "A" false) e = true ↔
          ∃ a, authorOfData (fun _ => none) e.data = some a ∧
            (if false then a ≠ "A" else a = "A"))
      ∧ (∀ e : LogEntry, authorOfData (fun _ => none) e.data = none →
          copyShouldWrite (fun _ => none) (extractPred "A" false) e = false)) :=
  ⟨by decide, c6_extract_filter (fun _ => none) "A" false [(⟨0, [1]⟩ : LogEntry)] (by decide)⟩

theorem extract_counts (decode : List Nat → Option Json) (A : String)
    (log : List LogEntry) :
    (log.filter (fun e => copyShouldWrite decode (extractPred A false) e)).length
      + (log.filter (fun e => copyShouldWrite decode (extractPred A true) e)).length
      = (log.filter (fun e => (authorOfData decode e.data).isSome)).length := by
  induction log with
  | nil => rfl
  | cons e es ih =>
    cases ha : authorOfData decode e.data with
    | none =>
      have h1 : copyShouldWrite decode (extractPred A false) e = false := by
        simp [copyShouldWrite, ha]
      have h2 : copyShouldWrite decode (extractPred A true) e = false := by
        simp [copyShouldWrite, ha]
      have h3 : (authorOfData decode e.data).isSome = false := by rw [ha]; rfl
      rw [List.filter_cons, List.filter_cons, List.filter_cons, h1, h2, h3]
      simpa using ih
    | some a =>
      have h1 : copyShouldWrite decode (extractPred A false) e = (a == A) := by
        simp [copyShouldWrite, extractPred, ha]
      have h2 : copyShouldWrite decode (extractPred A true) e = (a != A) := by
        simp [copyShouldWrite, extractPred, ha]
      have h3 : (authorOfData decode e.data).isSome = true := by rw [ha]; rfl
      rw [List.filter_cons, List.filter_cons, List.filter_cons, h1, h2, h3]
      by_cases hA : a = A
      · subst hA
        simp only [beq_self_eq_true, bne_self_eq_false, if_true, Bool.false_eq_true,
          if_false, List.length_cons]
        omega
      · have hbeq : (a == A) = false := beq_eq_false_iff_ne.mpr hA
        have hbne : (a != A) = true := by rw [bne, hbeq]; rfl
        simp only [hbeq, hbne, if_true, Bool.false_eq_true, if_false, List.length_cons]
        omega

/-- C7 counterexample: a non-tombstone entry that decodes to JSON without
an author field (serde_json would decode the bytes of the text `{}` this
way) is written by neither extract(A) nor extract(A, invert): the two
counts sum to 0, not to the non-tombstone total 1. -/
theorem c7_partition_counterexample :
    ¬ ((extractOp (fun d => if d = [123, 125] then some (Json.obj []) else none)
          "A" false true false [(⟨0, [123, 125]⟩ : LogEntry)]).written.length
        + (extractOp (fun d => if d = [123, 125] then some (Json.obj []) else none)
          "A" true true false [(⟨0, [123, 125]⟩ : LogEntry)]).written.length
        = ([(⟨0, [123, 125]⟩ : LogEntry)].filter
            (fun e => !isTombstone e.data)).length) := by
  decide

/-- C7 amended: for a fixed author, extract(A) and extract(A, invert)
are disjoint and together cover exactly the entries with an extractable
string value.author; their counts sum to the number of such entries, not
to the number of non-tombstone entries (entries that decode without an
author match neither side). -/
theorem c7_partition_amended (decode : List Nat → Option Json) (A : String)
    (log : List LogEntry) :
    ((extractOp decode A false true false log).written.length
        + (extractOp decode A true true false log).written.length
      = (log.filter (fun e => (authorOfData decode e.data).isSome)).length)
    ∧ (∀ e : LogEntry, ¬(copyShouldWrite decode (extractPred A false) e = true
        ∧ copyShouldWrite decode (extractPred A true) e = true)) := by
  constructor
  · cases hlog : log with
    | nil => rfl
    | cons x xs =>
      have hemp : log.isEmpty = false := by rw [hlog]; rfl
      rw [← hlog]
      unfold extractOp
      rw [hemp]
      simp only [Bool.not_true, Bool.false_and, Bool.false_eq_true, if_false]
      rw [copyLogEntries_eq_filter_map, copyLogEntries_eq_filter_map,
        List.length_map, List.length_map]
      exact extract_counts decode A log
  · intro e ⟨h1, h2⟩
    cases ha : authorOfData decode e.data with
    | none => simp [copyShouldWrite, ha] at h1
    | some a =>
      have e1 : a = A := by simpa [copyShouldWrite, extractPred, ha] using h1
      have e2 : a ≠ A := by simpa [copyShouldWrite, extractPred, ha] using h2
      exact e2 e1

/-- C9: with the overwrite flag unset and an existing destination, both
extract and sort refuse: they report, do not create or truncate the
destination, write nothing, and terminate successfully without scanning. -/
theorem c9_overwrite_refusal (decode : List Nat → Option Json) (feedId : String)
    (invert : Bool) (log : List LogEntry) (sk : List (F64 × Nat)) :
    extractOp decode feedId invert false true log
        = ⟨true, false, false, []⟩
    ∧ sortResult decode false true log sk = ⟨true, false, false, []⟩ :=
  ⟨rfl, rfl⟩

/-- C4 counterexample: sort on a zero-length source (overwrite set, no
pre-existing destination) creates/truncates the destination file BEFORE
detecting the empty input — the destination is touched, contradicting the
claim that it is not created or truncated. -/
theorem c4_empty_guard_counterexample :
    (sortResult (fun _ => none) true false [] []).destCreated = true := rfl

/-- C4 amended: every operation given a zero-length source log appends no
entries, reports the empty input, and terminates without error; extract
detects the empty input before creating the destination, but sort
creates/truncates the destination first and only then detects the empty
input (still appending nothing to it). -/
theorem c4_empty_guard_amended (verifyOk : List Nat → Bool)
    (vhc : List Nat → Option (List Nat) → Bool) (decode : List Nat → Option Json)
    (par invert : Bool) (feedId : String) (sk : List (F64 × Nat)) :
    verifyOp verifyOk par [] = .emptyInput
    ∧ validateOp vhc decode [] = .emptyInput
    ∧ extractOp decode feedId invert true false [] = ⟨false, false, true, []⟩
    ∧ sortResult decode true false [] sk = ⟨false, true, true, []⟩ :=
  ⟨rfl, rfl, rfl, rfl⟩

/-- C5 counterexample: an all-zero entry is a tombstone, yet the sort
branch keys it (timestamp 0.0), includes it in the written output, and the
view pager attempts to decode it and panics (`none`), with a decode that
fails on the non-JSON all-zero bytes as serde_json does. -/
theorem c5_tombstone_skip_counterexample :
    isTombstone [0, 0, 0, 0] = true
    ∧ isSortedKeysFor (fun _ => none) [(⟨5, [0, 0, 0, 0]⟩ : LogEntry)]
        (sortKeys (fun _ => none) [(⟨5, [0, 0, 0, 0]⟩ : LogEntry)])
    ∧ (sortResult (fun _ => none) true false [(⟨5, [0, 0, 0, 0]⟩ : LogEntry)]
        (sortKeys (fun _ => none) [(⟨5, [0, 0, 0, 0]⟩ : LogEntry)])).written
        = [[0, 0, 0, 0]]
    ∧ viewMapEntry (fun _ => none) (⟨5, [0, 0, 0, 0]⟩ : LogEntry) = none := by
  refine ⟨by decide, ⟨by decide, by decide⟩, by decide, rfl⟩

/-- C5 amended: verify and validate filter out all-zero entries before any
content decision, and extract never writes one when decoding fails on
all-zero bytes (as it does for serde_json, since they are not JSON); but
the sort branch keys and outputs every entry including tombstones, and the
view pager attempts to decode every entry and panics on a tombstone. -/
theorem c5_tombstone_amended (verifyOk : List Nat → Bool)
    (vhc : List Nat → Option (List Nat) → Bool)
    (decode : List Nat → Option Json) (log : List LogEntry) (e : LogEntry)
    (hdec : ∀ d : List Nat, isTombstone d = true → decode d = none)
    (ht : isTombstone e.data = true) :
    verifySequentialOk verifyOk (e :: log) = verifySequentialOk verifyOk log
    ∧ validateScan vhc decode (e :: log) = validateScan vhc decode log
    ∧ (∀ sw : String → Bool, copyShouldWrite decode sw e = false)
    ∧ (sortKeys decode (e :: log)).length = (e :: log).length
    ∧ viewMapEntry decode e = none := by
  have hde : decode e.data = none := hdec e.data ht
  refine ⟨?_, ?_, ?_, ?_, ?_⟩
  · unfold verifySequentialOk
    simp [List.filter_cons, ht]
  · unfold validateScan
    simp [List.filter_cons, ht]
  · intro sw
    unfold copyShouldWrite authorOfData
    rw [hde]
  · unfold sortKeys
    rw [List.length_map]
  · unfold viewMapEntry
    rw [hde]
    rfl

/-- Witness for C5 amended: the all-zero decode and a one-tombstone log. -/
theorem c5_tombstone_amended_witness :
    (∀ d : List Nat, isTombstone d = true → (fun _ => (none : Option Json)) d = none)
    ∧ (isTombstone (⟨0, [0]⟩ : LogEntry).data = true)
    ∧ (verifySequentialOk (fun _ => true) ((⟨0, [0]⟩ : LogEntry) :: [])
          = verifySequentialOk (fun _ => true) []
      ∧ validateScan (fun _ _ => true) (fun _ => none) ((⟨0, [0]⟩ : LogEntry) :: [])
          = validateScan (fun _ _ => true) (fun _ => none) []
      ∧ (∀ sw : String → Bool, copyShouldWrite (fun _ => none) sw (⟨0, [0]⟩ : LogEntry) = false)
      ∧ (sortKeys (fun _ => none) ((⟨0, [0]⟩ : LogEntry) :: [])).length
          = ((⟨0, [0]⟩ : LogEntry) :: []).length
      ∧ viewMapEntry (fun _ => none) (⟨0, [0]⟩ : LogEntry) = none) :=
  ⟨fun _ _ => rfl, by decide,
    c5_tombstone_amended (fun _ => true) (fun _ _ => true) (fun _ => none) []
      (⟨0, [0]⟩ : LogEntry) (fun _ _ => rfl) (by decide)⟩

/-- C3 counterexample: a log with one non-tombstone entry whose payload
fails to decode (as the byte 0x01 does for serde_json): the validate scan
does not complete with a per-message outcome — it aborts (the panicking
unwrap at line 184), i.e. the decode failure IS a hard error for validate. -/
theorem c3_decode_nonfatal_counterexample :
    validateScan (fun _ _ => true) (fun _ => none) [(⟨0, [1]⟩ : LogEntry)] = none := by
  decide

/-- C3 amended: an entry whose payload fails to decode or lacks the needed
field is treated as non-matching by extract and gets timestamp 0.0 in
sort; but the validate branch panics on it (hard error) instead of
recording a non-fatal per-message outcome. -/
theorem c3_decode_default_amended (decode : List Nat → Option Json)
    (d : List Nat) (off : Nat) (hna : parseSsbAuthor decode d = none) :
    (∀ sw : String → Bool, copyShouldWrite decode sw (⟨off, d⟩ : LogEntry) = false)
    ∧ (∀ (vhc : List Nat → Option (List Nat) → Bool)
        (st : List (Bool × String) × List (String × List Nat)),
        validateStep vhc decode st (⟨off, d⟩ : LogEntry) = none)
    ∧ ((((decode d).bind (fun v => (v.get "value").bind (fun v => v.get "timestamp"))).bind
          Json.asF64 = none) →
        getEntryTimestamp decode (⟨off, d⟩ : LogEntry) = F64.finite 0) := by
  have hauth : authorOfData decode d = none := by
    unfold authorOfData
    cases hd : decode d with
    | none => rfl
    | some v =>
      unfold parseSsbAuthor at hna
      rw [hd] at hna
      exact hna
  refine ⟨?_, ?_, ?_⟩
  · intro sw
    unfold copyShouldWrite
    rw [hauth]
  · intro vhc st
    unfold validateStep
    rw [hna]
  · intro hts
    unfold getEntryTimestamp
    cases hd : decode d with
    | none => rfl
    | some v =>
      rw [hd] at hts
      simp only [Option.some_bind] at hts
      simp only [hts, Option.getD_none]

/-- Witness for C3 amended: the undecodable byte 0x01. -/
theorem c3_decode_default_amended_witness :
    (parseSsbAuthor (fun _ => (none : Option Json)) [1] = none)
    ∧ ((∀ sw : String → Bool,
          copyShouldWrite (fun _ => none) sw (⟨0, [1]⟩ : LogEntry) = false)
      ∧ (∀ (vhc : List Nat → Option (List Nat) → Bool)
          (st : List (Bool × String) × List (String × List Nat)),
          validateStep vhc (fun _ => none) st (⟨0, [1]⟩ : LogEntry) = none)
      ∧ (((((fun _ => (none : Option Json)) [1]).bind
            (fun v => (v.get "value").bind (fun v => v.get "timestamp"))).bind
            Json.asF64 = none) →
          getEntryTimestamp (fun _ => none) (⟨0, [1]⟩ : LogEntry) = F64.finite 0)) :=
  ⟨rfl, c3_decode_default_amended (fun _ => none) [1] 0 rfl⟩

/-- C2: (general part) after any validate step on an entry whose author
parses as `a`, the per-author map stores that entry's raw bytes as `a`'s
previous message regardless of the audit outcome; (scenario) for author
A's messages 1-4 where only message 3 fails the chain audit, validate
records exactly one error for A and stores message 4 as A's previous. -/
theorem c2_validate_prev_regardless (vhc : List Nat → Option (List Nat) → Bool)
    (decode : List Nat → Option Json) (A : String) (d1 d2 d3 d4 : List Nat)
    (hp1 : parseSsbAuthor decode d1 = some A)
    (hp2 : parseSsbAuthor decode d2 = some A)
    (hp3 : parseSsbAuthor decode d3 = some A)
    (hp4 : parseSsbAuthor decode d4 = some A)
    (ht1 : isTombstone d1 = false) (ht2 : isTombstone d2 = false)
    (ht3 : isTombstone d3 = false) (ht4 : isTombstone d4 = false)
    (hv1 : vhc d1 none = true) (hv2 : vhc d2 (some d1) = true)
    (hv3 : vhc d3 (some d2) = false) (hv4 : vhc d4 (some d3) = true) :
    (∀ (st : List (Bool × String) × List (String × List Nat)) (e : LogEntry)
        (st' : List (Bool × String) × List (String × List Nat)) (a : String),
        validateStep vhc decode st e = some st' →
        parseSsbAuthor decode e.data = some a →
        (st'.2.find? (fun p => p.1 == a)).map (fun p => p.2) = some e.data)
    ∧ validateScan vhc decode
        [(⟨0, d1⟩ : LogEntry), ⟨1, d2⟩, ⟨2, d3⟩, ⟨3, d4⟩]
        = some ([(true, A), (true, A), (false, A), (true, A)], [(A, d4)])
    ∧ errorsForAuthor [(true, A), (true, A), (false, A), (true, A)] A = 1 := by
  refine ⟨?_, ?_, ?_⟩
  · intro st e st' a hstep hparse
    unfold validateStep at hstep
    rw [hparse] at hstep
    injection hstep with hstep
    subst hstep
    simp [List.find?]
  · unfold validateScan
    rw [show ([(⟨0, d1⟩ : LogEntry), ⟨1, d2⟩, ⟨2, d3⟩, ⟨3, d4⟩].filter
        (fun e => !isTombstone e.data))
        = [(⟨0, d1⟩ : LogEntry), ⟨1, d2⟩, ⟨2, d3⟩, ⟨3, d4⟩] from by
      simp [List.filter_cons, ht1, ht2, ht3, ht4]]
    simp only [List.foldlM, validateStep, hp1, hp2, hp3, hp4, List.find?, List.filter,
      beq_self_eq_true, bne_self_eq_false, Option.map_some, hv1, hv2, hv3, hv4]
    simp [hv1, hv2, hv3, hv4]
  · unfold errorsForAuthor
    simp [List.filter_cons]

/-- Witness for C2: concrete messages 1-4 for author "A" with an auditor
that fails exactly on message 3's bytes. -/
theorem c2_validate_prev_regardless_witness :
    (parseSsbAuthor
        (fun _ => some (Json.obj [("value", Json.obj [("author", Json.str "A")])]))
        [1] = some "A")
    ∧ (isTombstone [3] = false)
    ∧ ((fun d _ => d != [3]) [3] (some [2]) = false)
    ∧ validateScan (fun d _ => d != [3])
        (fun _ => some (Json.obj [("value", Json.obj [("author", Json.str "A")])]))
        [(⟨0, [1]⟩ : LogEntry), ⟨1, [2]⟩, ⟨2, [3]⟩, ⟨3, [4]⟩]
        = some ([(true, "A"), (true, "A"), (false, "A"), (true, "A")], [("A", [4])])
    ∧ errorsForAuthor [(true, "A"), (true, "A"), (false, "A"), (true, "A")] "A" = 1 := by
  have h := c2_validate_prev_regardless (fun d _ => d != [3])
    (fun _ => some (Json.obj [("value", Json.obj [("author", Json.str "A")])]))
    "A" [1] [2] [3] [4]
    rfl rfl rfl rfl
    (by decide) (by decide) (by decide) (by decide)
    (by decide) (by decide) (by decide) (by decide)
  exact ⟨rfl, by decide, by decide, h.2.1, h.2.2⟩

theorem keyLt_not_keyLe (a b : F64 × Nat) (h : keyLt a b = true) : keyLe b a = false := by
  rcases a with ⟨af, ao⟩
  rcases b with ⟨bf, bo⟩
  cases af with
  | nan => simp [keyLt, F64.fcmp] at h
  | finite qa =>
    cases bf with
    | nan => simp [keyLt, F64.fcmp] at h
    | finite qb =>
      by_cases h1 : qa < qb
      · have h2 : ¬ qb < qa := lt_asymm h1
        simp [keyLe, F64.fcmp, h1, h2]
      · simp [keyLt, F64.fcmp, h1] at h

theorem sorted_perm_unique (l₁ : List (F64 × Nat)) :
    ∀ l₂, l₁.Perm l₂ → l₁.Pairwise (fun a b => keyLt a b = true) →
      l₂.Pairwise (fun a b => keyLe a b = true) → l₁ = l₂ := by
  induction l₁ with
  | nil =>
    intro l₂ hp _ _
    exact (hp.symm.eq_nil).symm
  | cons x xs ih =>
    intro l₂ hp h₁ h₂
    cases l₂ with
    | nil => exact absurd hp.eq_nil (by simp)
    | cons y ys =>
      have hxy : x = y := by
        by_contra hne
        have hx_in_ys : x ∈ ys := by
          rcases List.mem_cons.mp (hp.subset (List.mem_cons_self x xs)) with h | h
          · exact absurd h hne
          · exact h
        have hy_in_xs : y ∈ xs := by
          rcases List.mem_cons.mp (hp.symm.subset (List.mem_cons_self y ys)) with h | h
          · exact absurd h.symm hne
          · exact h
        have hlt : keyLt x y = true := (List.pairwise_cons.mp h₁).1 y hy_in_xs
        have hle : keyLe y x = true := (List.pairwise_cons.mp h₂).1 x hx_in_ys
        rw [keyLt_not_keyLe x y hlt] at hle
        exact Bool.false_ne_true hle
      subst hxy
      rw [ih ys hp.cons_inv (List.pairwise_cons.mp h₁).2 (List.pairwise_cons.mp h₂).2]

theorem logGetD_mem (log : List LogEntry)
    (hnodup : (log.map (fun e => e.offset)).Nodup) :
    ∀ e ∈ log, logGetD log e.offset = e.data := by
  induction log with
  | nil => intro e he; cases he
  | cons x xs ih =>
    intro e he
    have hnd := List.nodup_cons.mp hnodup
    rcases List.mem_cons.mp he with h | h
    · subst h
      unfold logGetD
      rw [List.find?_cons_of_pos]
      · rfl
      · exact beq_self_eq_true e.offset
    · have hoff : (x.offset == e.offset) = false := by
        rw [beq_eq_false_iff_ne]
        intro hcontra
        have : e.offset ∈ xs.map (fun e => e.offset) :=
          List.mem_map_of_mem (fun e => e.offset) h
        rw [← hcontra] at this
        exact hnd.1 this
      unfold logGetD
      rw [List.find?_cons_of_neg]
      · exact ih hnd.2 e h
      · simp [hoff]

/-- C8 counterexample: a two-entry log whose extracted timestamps are
already (weakly) ascending — both 0.0, a tie — for which the unstable sort
contract admits the swapped key order, producing output that differs from
the original source order. -/
theorem c8_sort_stability_counterexample :
    ((sortKeys (fun _ => none) [(⟨0, [1]⟩ : LogEntry), ⟨1, [2]⟩]).Pairwise
        (fun a b => keyLe a b = true))
    ∧ isSortedKeysFor (fun _ => none) [(⟨0, [1]⟩ : LogEntry), ⟨1, [2]⟩]
        [(F64.finite 0, 1), (F64.finite 0, 0)]
    ∧ (sortResult (fun _ => none) true false [(⟨0, [1]⟩ : LogEntry), ⟨1, [2]⟩]
        [(F64.finite 0, 1), (F64.finite 0, 0)]).written
        ≠ [(⟨0, [1]⟩ : LogEntry), ⟨1, [2]⟩].map (fun e => e.data) := by
  refine ⟨by decide, ⟨by decide, by decide⟩, by decide⟩

/-- C8 amended: when the extracted timestamps are STRICTLY ascending (and
offsets are distinct), every output the unstable sort contract admits is
exactly the original source order; with ties the order of tied entries is
not guaranteed (see the counterexample). -/
theorem c8_sort_stability_amended (decode : List Nat → Option Json)
    (log : List LogEntry) (sk : List (F64 × Nat))
    (hnodup : (log.map (fun e => e.offset)).Nodup)
    (hstrict : (sortKeys decode log).Pairwise (fun a b => keyLt a b = true))
    (hsk : isSortedKeysFor decode log sk) (hne : log ≠ []) :
    sortResult decode true false log sk
      = ⟨false, true, false, log.map (fun e => e.data)⟩ := by
  have hsk_eq : sortKeys decode log = sk :=
    sorted_perm_unique (sortKeys decode log) sk hsk.1.symm hstrict hsk.2
  have hemp : log.isEmpty = false := by
    cases log with
    | nil => exact absurd rfl hne
    | cons e es => rfl
  have hw : sk.map (fun k => logGetD log k.2) = log.map (fun e => e.data) := by
    rw [← hsk_eq]
    unfold sortKeys
    rw [List.map_map]
    apply List.map_congr_left
    intro e he
    exact logGetD_mem log hnodup e he
  unfold sortResult
  rw [hemp]
  simp only [Bool.not_true, Bool.false_and, Bool.false_eq_true, if_false, hw]

/-- Witness for C8 amended: two entries with strictly ascending timestamps
1.0 and 2.0 and the (unique) identity key permutation. -/
theorem c8_sort_stability_amended_witness :
    (([(⟨0, [1]⟩ : LogEntry), ⟨1, [2]⟩].map (fun e => e.offset)).Nodup
      ∧ (sortKeys (fun d => if d = [1]
            then some (Json.obj [("value", Json.obj [("timestamp", Json.num 1)])])
            else some (Json.obj [("value", Json.obj [("timestamp", Json.num 2)])]))
          [(⟨0, [1]⟩ : LogEntry), ⟨1, [2]⟩]).Pairwise (fun a b => keyLt a b = true)
      ∧ isSortedKeysFor (fun d => if d = [1]
            then some (Json.obj [("value", Json.obj [("timestamp", Json.num 1)])])
            else some (Json.obj [("value", Json.obj [("timestamp", Json.num 2)])]))
          [(⟨0, [1]⟩ : LogEntry), ⟨1, [2]⟩] [(F64.finite 1, 0), (F64.finite 2, 1)]
      ∧ [(⟨0, [1]⟩ : LogEntry), ⟨1, [2]⟩] ≠ [])
    ∧ sortResult (fun d => if d = [1]
          then some (Json.obj [("value", Json.obj [("timestamp", Json.num 1)])])
          else some (Json.obj [("value", Json.obj [("timestamp", Json.num 2)])]))
        true false [(⟨0, [1]⟩ : LogEntry), ⟨1, [2]⟩] [(F64.finite 1, 0), (F64.finite 2, 1)]
        = ⟨false, true, false, [(⟨0, [1]⟩ : LogEntry), ⟨1, [2]⟩].map (fun e => e.data)⟩ :=
  ⟨⟨by decide, by decide, ⟨by decide, by decide⟩, by decide⟩,
    c8_sort_stability_amended (fun d => if d = [1]
        then some (Json.obj [("value", Json.obj [("timestamp", Json.num 1)])])
        else some (Json.obj [("value", Json.obj [("timestamp", Json.num 2)])]))
      [(⟨0, [1]⟩ : LogEntry), ⟨1, [2]⟩] [(F64.finite 1, 0), (F64.finite 2, 1)]
      (by decide) (by decide) ⟨by decide, by decide⟩ (by decide)⟩

theorem asF64_finite (j : Json) (f : F64) (h : j.asF64 = some f) :
    ∃ q : ℚ, f = F64.finite q := by
  cases j <;> simp [Json.asF64] at h
  exact ⟨_, h.symm⟩

theorem getEntryTimestamp_finite (decode : List Nat → Option Json) (e : LogEntry) :
    ∃ q : ℚ, getEntryTimestamp decode e = F64.finite q := by
  unfold getEntryTimestamp
  cases hd : decode e.data with
  | none => exact ⟨0, rfl⟩
  | some v =>
    cases hf : (((v.get "value").bind (fun v => v.get "timestamp")).bind Json.asF64) with
    | none =>
      refine ⟨0, ?_⟩
      simp only [hf, Option.getD_none]
    | some f =>
      rcases Option.bind_eq_some.mp hf with ⟨j, _, hj⟩
      rcases asF64_finite j f hj with ⟨q, hq⟩
      refine ⟨q, ?_⟩
      simp only [hf, Option.getD_some, hq]

/-- C10: every timestamp key the sort branch produces is finite, never
NaN — a decoded JSON number is finite and the fallback is 0.0 — so
partial_cmp on any two produced keys is always Some and the comparator's
unwrap at line 300 can never hit the None branch. -/
theorem c10_sort_keys_no_nan (decode : List Nat → Option Json) (log : List LogEntry)
    (a b : F64 × Nat) (ha : a ∈ sortKeys decode log) (hb : b ∈ sortKeys decode log) :
    (∃ q : ℚ, a.1 = F64.finite q) ∧ (F64.fcmp a.1 b.1).isSome = true := by
  have hfin : ∀ k ∈ sortKeys decode log, ∃ q : ℚ, k.1 = F64.finite q := by
    intro k hk
    unfold sortKeys at hk
    rcases List.mem_map.mp hk with ⟨e, _, hke⟩
    rcases getEntryTimestamp_finite decode e with ⟨q, hq⟩
    exact ⟨q, by rw [← hke]; exact hq⟩
  rcases hfin a ha with ⟨qa, hqa⟩
  rcases hfin b hb with ⟨qb, hqb⟩
  refine ⟨⟨qa, hqa⟩, ?_⟩
  rw [hqa, hqb]
  rfl

/-- Witness for C10: both keys of a one-entry log with undecodable data. -/
theorem c10_sort_keys_no_nan_witness :
    ((F64.finite 0, (0 : Nat)) ∈ sortKeys (fun _ => none) [(⟨0, [1]⟩ : LogEntry)])
    ∧ ((∃ q : ℚ, (F64.finite 0, (0 : Nat)).1 = F64.finite q)
      ∧ (F64.fcmp (F64.finite 0, (0 : Nat)).1 (F64.finite 0, (0 : Nat)).1).isSome = true) :=
  ⟨by decide,
    c10_sort_keys_no_nan (fun _ => none) [(⟨0, [1]⟩ : LogEntry)]
      (F64.finite 0, 0) (F64.finite 0, 0) (by decide) (by decide)⟩
